import Mathlib

/-!
Verification of the task-store / claim-engine core of the spx-options-downloader
repository.

The Python source keeps one SQLite table `available_dates` whose rows are the
units of work ("tasks").  `src/database.py` provides the store operations
(`claim_next_row`, `mark_completed`, `mark_failed`, `reset_stuck_rows`,
`update_compressed_file_path`) and `src/download_greeks.py` drives the worker
loop and the download-and-archive pipeline.

The embedding below models the table as a `List Row`, timestamps as abstract
`Nat` instants passed explicitly where the SQL uses `CURRENT_TIMESTAMP`, and
SQLite TEXT comparison (used by `ORDER BY expiration DESC, date DESC` on
`YYYY-MM-DD` strings) as lexicographic comparison of the strings' character
lists.  `BEGIN IMMEDIATE` makes each store operation one atomic step, so a run
of N concurrent claimers is modelled as an arbitrary sequential interleaving of
atomic `claim_next_row` steps.
-/

namespace Theta

/-- Lexicographic comparison of character lists; this is how SQLite compares
TEXT values (and how Python compares `str`), restricted to the byte-ordered
character data. -/
def lexLt : List Char → List Char → Bool
  | [], [] => false
  | [], _ :: _ => true
  | _ :: _, [] => false
  | a :: as, b :: bs => if a < b then true else if b < a then false else lexLt as bs

/-- Comparison of the TEXT columns `expiration` and `date`. -/
def strLt (a b : String) : Bool := lexLt a.data b.data

/-- Value of the `status` column of `available_dates`: the four states written
by `database.py` (`'pending'`, `'in_progress'`, `'completed'`, `'failed'`). -/
inductive Status where
  | pending
  | in_progress
  | completed
  | failed
deriving DecidableEq

/-- One row of the `available_dates` table, with the columns touched by the
store operations in `src/database.py`.  `id` is the INTEGER PRIMARY KEY,
`expiration` and `date` are `YYYY-MM-DD` TEXT, timestamps are abstract
instants. -/
structure Row where
  id : Nat
  symbol : String
  expiration : String
  date : String
  status : Status
  retry_count : Nat
  started_at : Option Nat
  completed_at : Option Nat
  error_message : Option String
  compressed_file_path : Option String
deriving DecidableEq

/-- The WHERE clause of `claim_next_row`:
`status = 'pending' AND retry_count < max_retries`. -/
def eligible (max_retries : Nat) (r : Row) : Bool :=
  r.status == Status.pending && decide (r.retry_count < max_retries)

/-- `keyGt a b` holds when row `a` sorts strictly before row `b` under
`ORDER BY expiration DESC, date DESC`, i.e. when `a`'s key `(expiration, date)`
is lexicographically strictly greater than `b`'s. -/
def keyGt (a b : Row) : Bool :=
  strLt b.expiration a.expiration ||
    (b.expiration == a.expiration && strLt b.date a.date)

/-- Keep the row that sorts first under the DESC ordering (the current
candidate `m` unless `r` strictly beats it). -/
def betterRow (m r : Row) : Row := if keyGt r m then r else m

/-- First row of a list as sorted by `ORDER BY expiration DESC, date DESC`:
some row that no element of the list strictly beats. -/
def pickMax : List Row → Option Row
  | [] => none
  | r :: rs => some (rs.foldl betterRow r)

/-- The SELECT of `claim_next_row`: first row, in the DESC ordering, satisfying
`status = 'pending' AND retry_count < max_retries` (`LIMIT 1`). -/
def selectNext (s : List Row) (max_retries : Nat) : Option Row :=
  pickMax (s.filter (eligible max_retries))

/-- `ThetaDatabase.claim_next_row` (database.py lines 170-214): inside one
`BEGIN IMMEDIATE` transaction, select the next eligible row; if none, roll back
and return `None`; otherwise set it to `in_progress` with
`started_at = CURRENT_TIMESTAMP` and return `(id, symbol, expiration, date)`.
`now` stands for `CURRENT_TIMESTAMP`. -/
def claim_next_row (s : List Row) (max_retries now : Nat) :
    Option (Nat × String × String × String) × List Row :=
  match selectNext s max_retries with
  | none => (none, s)
  | some r =>
    (some (r.id, r.symbol, r.expiration, r.date),
     s.map fun x =>
       if x.id == r.id then
         { x with status := Status.in_progress, started_at := some now }
       else x)

/-- `ThetaDatabase.mark_completed` (database.py lines 216-231):
`UPDATE ... SET status = 'completed', completed_at = CURRENT_TIMESTAMP,
error_message = NULL WHERE id = row_id`. -/
def mark_completed (s : List Row) (row_id now : Nat) : List Row :=
  s.map fun x =>
    if x.id == row_id then
      { x with status := Status.completed, completed_at := some now,
               error_message := none }
    else x

/-- `ThetaDatabase.mark_failed` (database.py lines 233-267): read the row's
`retry_count`; if the id is absent return `None` with no update; otherwise
increment the count, move to `'failed'` when the new count reaches
`max_retries` (setting `completed_at`) and back to `'pending'` otherwise
(nulling `completed_at`), store the error message, and return the new
status. -/
def mark_failed (s : List Row) (row_id : Nat) (error_msg : String)
    (max_retries now : Nat) : Option Status × List Row :=
  match s.find? (fun x => x.id == row_id) with
  | none => (none, s)
  | some r =>
    let new_retry_count := r.retry_count + 1
    let new_status :=
      if max_retries ≤ new_retry_count then Status.failed else Status.pending
    (some new_status,
     s.map fun x =>
       if x.id == row_id then
         { x with status := new_status, retry_count := new_retry_count,
                  error_message := some error_msg,
                  completed_at :=
                    if new_status == Status.failed then some now else none }
       else x)

/-- The WHERE clause of `reset_stuck_rows`: `status = 'in_progress' AND
started_at < datetime('now', '-timeout minutes')`; a NULL `started_at` never
matches. -/
def isStuck (timeout_minutes now : Nat) (r : Row) : Bool :=
  r.status == Status.in_progress &&
    match r.started_at with
    | some t => decide (t + timeout_minutes < now)
    | none => false

/-- `ThetaDatabase.reset_stuck_rows` (database.py lines 269-291): set every
stuck row back to `'pending'` with the fixed recovery message, and return the
number of rows updated (`cursor.rowcount`). -/
def reset_stuck_rows (s : List Row) (timeout_minutes now : Nat) :
    Nat × List Row :=
  ((s.filter (isStuck timeout_minutes now)).length,
   s.map fun x =>
     if isStuck timeout_minutes now x then
       { x with status := Status.pending,
                error_message := some ("Reset from stuck in_progress state") }
     else x)

/-- `ThetaDatabase.update_compressed_file_path` (database.py lines 319-333):
`UPDATE ... SET compressed_file_path = file_path WHERE id = row_id`. -/
def update_compressed_file_path (s : List Row) (row_id : Nat)
    (file_path : String) : List Row :=
  s.map fun x =>
    if x.id == row_id then { x with compressed_file_path := some file_path }
    else x

/-- The row a SELECT-by-id sees: the first row whose `id` matches (ids are the
INTEGER PRIMARY KEY, so in actual stores there is at most one). -/
def getRow (s : List Row) (i : Nat) : Option Row :=
  s.find? (fun x => x.id == i)

/-! ### Order facts about the `ORDER BY expiration DESC, date DESC` comparison -/

theorem lexLt_irrefl (l : List Char) : lexLt l l = false := by
  induction l with
  | nil => rfl
  | cons a as ih => simp [lexLt, lt_self_iff_false, ih]

theorem lexLt_trans {a b c : List Char} (h1 : lexLt a b = true)
    (h2 : lexLt b c = true) : lexLt a c = true := by
  induction a generalizing b c with
  | nil =>
    cases b with
    | nil => simp [lexLt] at h1
    | cons y ys =>
      cases c with
      | nil => simp [lexLt] at h2
      | cons z zs => simp [lexLt]
  | cons x xs ih =>
    cases b with
    | nil => simp [lexLt] at h1
    | cons y ys =>
      cases c with
      | nil => simp [lexLt] at h2
      | cons z zs =>
        by_cases hxy : x < y
        · by_cases hyz : y < z
          · simp [lexLt, lt_trans hxy hyz]
          · by_cases hzy : z < y
            · simp [lexLt, hyz, hzy] at h2
            · have hyz' : y = z := by
                rcases lt_trichotomy y z with h | h | h
                · exact absurd h hyz
                · exact h
                · exact absurd h hzy
              simp [lexLt, hyz' ▸ hxy]
        · by_cases hyx : y < x
          · simp [lexLt, hxy, hyx] at h1
          · have hxy' : x = y := by
              rcases lt_trichotomy x y with h | h | h
              · exact absurd h hxy
              · exact h
              · exact absurd h hyx
            subst hxy'
            simp only [lexLt, lt_self_iff_false, if_false] at h1
            by_cases hyz : x < z
            · simp [lexLt, hyz]
            · by_cases hzy : z < x
              · simp [lexLt, hyz, hzy] at h2
              · simp only [lexLt, hyz, hzy, if_false] at h2 ⊢
                exact ih h1 h2

theorem lexLt_asymm {a b : List Char} (h : lexLt a b = true) :
    lexLt b a = false := by
  induction a generalizing b with
  | nil =>
    cases b with
    | nil => simp [lexLt] at h
    | cons y ys => simp [lexLt]
  | cons x xs ih =>
    cases b with
    | nil => simp [lexLt] at h
    | cons y ys =>
      by_cases hxy : x < y
      · simp [lexLt, hxy, asymm hxy]
      · by_cases hyx : y < x
        · simp [lexLt, hxy, hyx] at h
        · simp only [lexLt, hxy, hyx, if_false] at h ⊢
          exact ih h

theorem lexLt_trichotomy (a b : List Char) :
    lexLt a b = true ∨ a = b ∨ lexLt b a = true := by
  induction a generalizing b with
  | nil =>
    cases b with
    | nil => right; left; rfl
    | cons y ys => left; simp [lexLt]
  | cons x xs ih =>
    cases b with
    | nil => right; right; simp [lexLt]
    | cons y ys =>
      rcases lt_trichotomy x y with h | h | h
      · left; simp [lexLt, h]
      · subst h
        rcases ih ys with h2 | h2 | h2
        · left; simp [lexLt, lt_self_iff_false, h2]
        · right; left; rw [h2]
        · right; right; simp [lexLt, lt_self_iff_false, h2]
      · right; right; simp [lexLt, h]

theorem strLt_irrefl (s : String) : strLt s s = false := lexLt_irrefl s.data

theorem strLt_asymm {a b : String} (h : strLt a b = true) :
    strLt b a = false := lexLt_asymm h

theorem strLt_ne {a b : String} (h : strLt a b = true) : a ≠ b := by
  intro he
  rw [he, strLt_irrefl] at h
  exact Bool.false_ne_true h

theorem strLt_eq_of_not_lt {a b : String} (h1 : strLt a b = false)
    (h2 : strLt b a = false) : a = b := by
  rcases lexLt_trichotomy a.data b.data with h | h | h
  · rw [strLt] at h1; rw [h1] at h; exact absurd h Bool.false_ne_true
  · exact String.ext h
  · rw [strLt] at h2; rw [h2] at h; exact absurd h Bool.false_ne_true

theorem strLt_notLt_trans {x y z : String} (h1 : strLt y x = false)
    (h2 : strLt z y = false) : strLt z x = false := by
  by_contra hzx
  have hzx' : strLt z x = true := by
    cases h : strLt z x with
    | false => exact absurd h hzx
    | true => rfl
  rcases lexLt_trichotomy x.data y.data with h | h | h
  · exact absurd (lexLt_trans hzx' h) (by rw [strLt] at h2; simp [strLt, h2])
  · have : x = y := String.ext h
    subst this
    exact absurd hzx' (by simp [h2])
  · exact absurd h (by rw [strLt] at h1; simp [h1])

theorem keyGt_eq_true_iff {a b : Row} : keyGt a b = true ↔
    (strLt b.expiration a.expiration = true ∨
      (b.expiration = a.expiration ∧ strLt b.date a.date = true)) := by
  simp [keyGt, Bool.or_eq_true, Bool.and_eq_true, beq_iff_eq]

theorem keyGt_eq_false_iff {a b : Row} : keyGt a b = false ↔
    (strLt b.expiration a.expiration = false ∧
      (b.expiration = a.expiration → strLt b.date a.date = false)) := by
  rw [← Bool.not_eq_true, keyGt_eq_true_iff]
  constructor
  · intro h
    constructor
    · cases he : strLt b.expiration a.expiration with
      | false => rfl
      | true => exact absurd (Or.inl he) h
    · intro he
      cases hd : strLt b.date a.date with
      | false => rfl
      | true => exact absurd (Or.inr ⟨he, hd⟩) h
  · rintro ⟨he, hd⟩ (h | ⟨h1, h2⟩)
    · rw [he] at h; exact Bool.false_ne_true h
    · rw [hd h1] at h2; exact Bool.false_ne_true h2

theorem keyGt_irrefl (a : Row) : keyGt a a = false := by
  rw [keyGt_eq_false_iff]
  exact ⟨strLt_irrefl _, fun _ => strLt_irrefl _⟩

theorem keyGt_asymm {a b : Row} (h : keyGt a b = true) : keyGt b a = false := by
  rw [keyGt_eq_true_iff] at h
  rw [keyGt_eq_false_iff]
  rcases h with h | ⟨h1, h2⟩
  · exact ⟨strLt_asymm h, fun he => absurd he.symm (strLt_ne h)⟩
  · refine ⟨?_, fun _ => strLt_asymm h2⟩
    rw [h1, strLt_irrefl]

theorem keyGt_notGt_trans {x y z : Row} (h1 : keyGt x y = false)
    (h2 : keyGt y z = false) : keyGt x z = false := by
  rw [keyGt_eq_false_iff] at h1 h2 ⊢
  obtain ⟨h1e, h1d⟩ := h1
  obtain ⟨h2e, h2d⟩ := h2
  refine ⟨strLt_notLt_trans h1e h2e, fun hze => ?_⟩
  have hxy : y.expiration = x.expiration := by
    refine strLt_eq_of_not_lt h1e ?_
    rw [← hze]; exact h2e
  have hzy : z.expiration = y.expiration := by rw [hxy, hze]
  exact strLt_notLt_trans (h1d hxy) (h2d hzy)

/-! ### The selected row is an eligible row that no eligible row beats -/

theorem foldl_betterRow_notGt (l : List Row) (a : Row) :
    keyGt a (l.foldl betterRow a) = false ∧
      ∀ x ∈ l, keyGt x (l.foldl betterRow a) = false := by
  induction l generalizing a with
  | nil => exact ⟨keyGt_irrefl a, by simp⟩
  | cons b l ih =>
    have step : keyGt a (betterRow a b) = false ∧
        keyGt b (betterRow a b) = false := by
      unfold betterRow
      cases h : keyGt b a with
      | true => simp [keyGt_asymm h, keyGt_irrefl]
      | false => simp [h, keyGt_irrefl]
    obtain ⟨hacc, hrest⟩ := ih (betterRow a b)
    refine ⟨keyGt_notGt_trans step.1 hacc, ?_⟩
    intro x hx
    rcases List.mem_cons.mp hx with rfl | hx
    · exact keyGt_notGt_trans step.2 hacc
    · exact hrest x hx

theorem foldl_betterRow_mem (l : List Row) (a : Row) :
    l.foldl betterRow a ∈ a :: l := by
  induction l generalizing a with
  | nil => simp
  | cons b l ih =>
    have h := ih (betterRow a b)
    have hb : betterRow a b = b ∨ betterRow a b = a := by
      unfold betterRow
      cases keyGt b a with
      | true => left; rfl
      | false => right; rfl
    rcases List.mem_cons.mp h with h' | h'
    · rcases hb with hb | hb
      · rw [List.foldl_cons, h', hb]; simp
      · rw [List.foldl_cons, h', hb]; simp
    · rw [List.foldl_cons]
      exact List.mem_cons_of_mem _ (List.mem_cons_of_mem _ h')

theorem pickMax_mem {l : List Row} {r : Row} (h : pickMax l = some r) :
    r ∈ l := by
  cases l with
  | nil => simp [pickMax] at h
  | cons a l =>
    simp only [pickMax, Option.some.injEq] at h
    have := foldl_betterRow_mem l a
    rw [h] at this
    exact this

theorem pickMax_not_beaten {l : List Row} {r : Row} (h : pickMax l = some r) :
    ∀ x ∈ l, keyGt x r = false := by
  cases l with
  | nil => simp [pickMax] at h
  | cons a l =>
    simp only [pickMax, Option.some.injEq] at h
    intro x hx
    obtain ⟨ha, hl⟩ := foldl_betterRow_notGt l a
    rcases List.mem_cons.mp hx with rfl | hx
    · rw [← h]; exact ha
    · rw [← h]; exact hl x hx

theorem pickMax_eq_none {l : List Row} : pickMax l = none ↔ l = [] := by
  cases l <;> simp [pickMax]

theorem selectNext_mem_eligible {s : List Row} {m : Nat} {r : Row}
    (h : selectNext s m = some r) : r ∈ s ∧ eligible m r = true := by
  have := pickMax_mem h
  exact ⟨(List.mem_filter.mp this).1, (List.mem_filter.mp this).2⟩

theorem selectNext_maximal {s : List Row} {m : Nat} {r : Row}
    (h : selectNext s m = some r) :
    ∀ x ∈ s, eligible m x = true → keyGt x r = false := by
  intro x hx he
  exact pickMax_not_beaten h x (List.mem_filter.mpr ⟨hx, he⟩)

theorem selectNext_eq_none {s : List Row} {m : Nat} :
    selectNext s m = none ↔ s.filter (eligible m) = [] := by
  rw [selectNext, pickMax_eq_none]

/-! ### Behaviour of a single claim -/

theorem claim_none_of_no_eligible {s : List Row} {m : Nat} (now : Nat)
    (h : s.filter (eligible m) = []) : claim_next_row s m now = (none, s) := by
  rw [claim_next_row, selectNext_eq_none.mpr h]

theorem eligible_false_of_in_progress (m : Nat) (x : Row)
    (hx : x.status = Status.in_progress) : eligible m x = false := by
  simp [eligible, hx]

/-- When exactly one row of the store is eligible, a claim returns exactly that
row and leaves a store with no eligible row at all. -/
theorem claim_of_filter_singleton {s : List Row} {m : Nat} {r : Row}
    (now : Nat) (h : s.filter (eligible m) = [r]) :
    (claim_next_row s m now).1 = some (r.id, r.symbol, r.expiration, r.date) ∧
      ((claim_next_row s m now).2).filter (eligible m) = [] := by
  have hsel : selectNext s m = some r := by
    rw [selectNext, h]
    rfl
  rw [claim_next_row, hsel]
  refine ⟨rfl, ?_⟩
  rw [List.filter_eq_nil_iff]
  intro x' hx'
  obtain ⟨x, hx, rfl⟩ := List.mem_map.mp hx'
  by_cases hid : x.id == r.id
  · rw [if_pos hid]
    simp [eligible]
  · rw [if_neg hid]
    intro helig
    have : x ∈ s.filter (eligible m) := List.mem_filter.mpr ⟨hx, helig⟩
    rw [h, List.mem_singleton] at this
    subst this
    exact hid (beq_self_eq_true x.id)

/-- C6: For every store state and `maxRetries`, `claim_next_row` selects an
eligible task (status `pending`, `retry_count < maxRetries`) that is maximal
under `(expiration DESC, date DESC)` among eligible tasks, sets exactly the
rows with that task's id to `in_progress` with `started_at = now`, and returns
its identity; when no eligible task exists it returns `none` and leaves the
store unchanged, and it returns `none` only in that case. -/
theorem claim_next_row_spec (s : List Row) (m now : Nat) :
    (s.filter (eligible m) = [] → claim_next_row s m now = (none, s)) ∧
    ((claim_next_row s m now).1 = none →
      (claim_next_row s m now).2 = s ∧ s.filter (eligible m) = []) ∧
    (∀ res s', claim_next_row s m now = (some res, s') →
      ∃ r ∈ s, eligible m r = true ∧
        (∀ x ∈ s, eligible m x = true → keyGt x r = false) ∧
        res = (r.id, r.symbol, r.expiration, r.date) ∧
        s' = s.map (fun x => if x.id == r.id then
          { x with status := Status.in_progress, started_at := some now }
          else x)) := by
  refine ⟨claim_none_of_no_eligible now, ?_, ?_⟩
  · intro hnone
    cases hsel : selectNext s m with
    | none =>
      rw [claim_next_row, hsel]
      exact ⟨rfl, selectNext_eq_none.mp hsel⟩
    | some r =>
      rw [claim_next_row, hsel] at hnone
      exact absurd hnone (by simp)
  · intro res s' heq
    cases hsel : selectNext s m with
    | none =>
      rw [claim_next_row, hsel] at heq
      simp at heq
    | some r =>
      rw [claim_next_row, hsel] at heq
      obtain ⟨hmem, helig⟩ := selectNext_mem_eligible hsel
      have h1 : res = (r.id, r.symbol, r.expiration, r.date) := by
        have := congrArg Prod.fst heq
        simp only [Option.some.injEq] at this
        exact this.symm
      have h2 : s' = s.map (fun x => if x.id == r.id then
          { x with status := Status.in_progress, started_at := some now }
          else x) := by
        exact (congrArg Prod.snd heq).symm
      exact ⟨r, hmem, helig, selectNext_maximal hsel, h1, h2⟩

/-! ### Concurrent claimers -/

/-- A run of `n` claim calls against one store.  `BEGIN IMMEDIATE` makes each
claim one atomic read-candidate-plus-write-transition step, so any execution of
`n` concurrent callers is some serialized sequence of these steps. -/
def runClaims : Nat → List Row → Nat → Nat →
    List (Option (Nat × String × String × String)) × List Row
  | 0, s, _, _ => ([], s)
  | n + 1, s, m, now =>
    let p := claim_next_row s m now
    let q := runClaims n p.2 m (now + 1)
    (p.1 :: q.1, q.2)

theorem runClaims_none {s : List Row} {m : Nat} (n now : Nat)
    (h : s.filter (eligible m) = []) :
    runClaims n s m now = (List.replicate n none, s) := by
  induction n generalizing now with
  | zero => rfl
  | succ k ih =>
    simp only [runClaims, claim_none_of_no_eligible now h, ih (now + 1)]
    simp [List.replicate_succ]

/-- C1: Against a store holding exactly one eligible (pending,
`retry_count < maxRetries`) task, any serialized run of `N ≥ 1` concurrent
claim calls hands that task to exactly one caller — the first to win the write
lock — and every other caller receives `none`; no two callers ever observe the
same task as claimed. -/
theorem claim_mutual_exclusion (s : List Row) (r : Row) (m now N : Nat)
    (h : s.filter (eligible m) = [r]) (hN : 1 ≤ N) :
    (runClaims N s m now).1 =
      some (r.id, r.symbol, r.expiration, r.date) ::
        List.replicate (N - 1) none := by
  obtain ⟨k, rfl⟩ : ∃ k, N = k + 1 := ⟨N - 1, (Nat.succ_pred_eq_of_pos hN).symm⟩
  obtain ⟨h1, h2⟩ := claim_of_filter_singleton now h
  simp only [runClaims, runClaims_none k (now + 1) h2, h1]
  simp

/-! ### Concrete rows used by the witnesses -/

def rowA : Row :=
  { id := 1, symbol := ("SPX"), expiration := ("2024-01-19"),
    date := ("2024-01-15"), status := Status.pending, retry_count := 0,
    started_at := none, completed_at := none, error_message := none,
    compressed_file_path := none }

def rowB : Row :=
  { rowA with id := 2, expiration := ("2024-02-16") }

theorem claim_mutual_exclusion_witness :
    (runClaims 3 [rowA] 3 0).1 =
      some (rowA.id, rowA.symbol, rowA.expiration, rowA.date) ::
        List.replicate 2 none :=
  claim_mutual_exclusion [rowA] rowA 3 0 3 (by decide) (by decide)

theorem claim_next_row_spec_witness :
    ∃ r ∈ [rowA, rowB], eligible 3 r = true ∧
      (∀ x ∈ [rowA, rowB], eligible 3 x = true → keyGt x r = false) ∧
      ((2 : Nat), rowB.symbol, rowB.expiration, rowB.date) =
        (r.id, r.symbol, r.expiration, r.date) ∧
      [rowA, { rowB with status := Status.in_progress, started_at := some 5 }] =
        [rowA, rowB].map (fun x => if x.id == r.id then
          { x with status := Status.in_progress, started_at := some 5 }
          else x) :=
  (claim_next_row_spec [rowA, rowB] 3 5).2.2
    ((2 : Nat), rowB.symbol, rowB.expiration, rowB.date)
    [rowA, { rowB with status := Status.in_progress, started_at := some 5 }]
    (by decide)

/-! ### Reading back a row through an UPDATE-by-id -/

theorem getRow_map_update (s : List Row) (i : Nat) (f : Row → Row)
    (hf : ∀ x, (f x).id = x.id) :
    getRow (s.map fun x => if x.id == i then f x else x) i =
      (getRow s i).map f := by
  induction s with
  | nil => rfl
  | cons a s ih =>
    by_cases h : a.id = i
    · have hb : (a.id == i) = true := beq_iff_eq.mpr h
      have hfa : ((f a).id == i) = true := beq_iff_eq.mpr (by rw [hf a]; exact h)
      have l1 : getRow ((a :: s).map fun x => if x.id == i then f x else x) i
          = some (f a) := by
        simp only [List.map_cons, if_pos hb, getRow]
        exact @List.find?_cons_of_pos Row (fun x => x.id == i) (f a) _ hfa
      have l2 : getRow (a :: s) i = some a := by
        rw [getRow]
        exact @List.find?_cons_of_pos Row (fun x => x.id == i) a _ hb
      rw [l1, l2]
      rfl
    · have hb : ¬ ((a.id == i) = true) := by simp [h]
      have l1 : getRow ((a :: s).map fun x => if x.id == i then f x else x) i
          = getRow (s.map fun x => if x.id == i then f x else x) i := by
        simp only [List.map_cons, if_neg hb, getRow]
        exact @List.find?_cons_of_neg Row (fun x => x.id == i) a _ hb
      have l2 : getRow (a :: s) i = getRow s i := by
        rw [getRow]
        exact @List.find?_cons_of_neg Row (fun x => x.id == i) a _ hb
      rw [l1, l2]
      exact ih

/-- Explicit form of `mark_failed` when the id is present: the read row
determines the new retry count and the new status, and every column the UPDATE
writes. -/
theorem mark_failed_found {s : List Row} {i : Nat} {r : Row} (msg : String)
    (m now : Nat) (hr : getRow s i = some r) :
    mark_failed s i msg m now =
      (some (if m ≤ r.retry_count + 1 then Status.failed else Status.pending),
       s.map fun x => if x.id == i then
         { x with
            status := if m ≤ r.retry_count + 1 then Status.failed
              else Status.pending,
            retry_count := r.retry_count + 1,
            error_message := some msg,
            completed_at := if m ≤ r.retry_count + 1 then some now else none }
         else x) := by
  rw [getRow] at hr
  rw [mark_failed, hr]
  by_cases hc : m ≤ r.retry_count + 1 <;> simp [hc]

/-- C10: Calling `mark_failed` with an id that matches no row returns `None`
and leaves the whole store unchanged. -/
theorem mark_failed_missing_id (s : List Row) (i : Nat) (msg : String)
    (m now : Nat) (h : ∀ r ∈ s, r.id ≠ i) :
    mark_failed s i msg m now = (none, s) := by
  have hfind : s.find? (fun x => x.id == i) = none :=
    List.find?_eq_none.mpr (fun x hx => by simp [h x hx])
  rw [mark_failed, hfind]

theorem mark_failed_missing_id_witness :
    mark_failed [rowA, rowB] 99 ("boom") 3 0 = (none, [rowA, rowB]) :=
  mark_failed_missing_id [rowA, rowB] 99 ("boom") 3 0 (by decide)

/-! ### Bounded retry -/

theorem mark_failed_getRow {s : List Row} {i : Nat} {r : Row} (msg : String)
    (m now : Nat) (hr : getRow s i = some r) :
    getRow (mark_failed s i msg m now).2 i = some
      { r with
         status := if m ≤ r.retry_count + 1 then Status.failed
           else Status.pending,
         retry_count := r.retry_count + 1,
         error_message := some msg,
         completed_at := if m ≤ r.retry_count + 1 then some now else none } := by
  have h2 : (mark_failed s i msg m now).2 = s.map fun x =>
      if x.id == i then
        { x with
           status := if m ≤ r.retry_count + 1 then Status.failed
             else Status.pending,
           retry_count := r.retry_count + 1,
           error_message := some msg,
           completed_at := if m ≤ r.retry_count + 1 then some now else none }
      else x := by
    rw [mark_failed_found msg m now hr]
  rw [h2, getRow_map_update s i (fun x =>
    { x with
       status := if m ≤ r.retry_count + 1 then Status.failed
         else Status.pending,
       retry_count := r.retry_count + 1,
       error_message := some msg,
       completed_at := if m ≤ r.retry_count + 1 then some now else none })
    (fun x => rfl), hr]
  rfl

/-- Repeated failures of task `i` starting from store `s`: the k-th call
(0-indexed) records error message `msg k` at instant `k`. -/
def failTimes (s : List Row) (i : Nat) (msg : Nat → String) (m : Nat) :
    Nat → List Row
  | 0 => s
  | k + 1 => (mark_failed (failTimes s i msg m k) i (msg k) m k).2

/-- C2: Each `mark_failed` call on a present task increments its `retry_count`
by exactly one, always stores the error message, returns the resulting status,
and moves the task to `failed` with `completed_at` set precisely when the new
count reaches `maxRetries`, otherwise back to `pending` with `completed_at`
null.  Consequently, starting from `retry_count = 0`, after `k` failures the
count is exactly `k` and the status is `failed` iff `k ≥ maxRetries` — so the
task becomes `failed` exactly on the `maxRetries`-th failure and not before. -/
theorem mark_failed_retry_spec (s : List Row) (i : Nat) (r : Row)
    (msg0 : String) (msg : Nat → String) (m now : Nat)
    (hr : getRow s i = some r) (hm : 1 ≤ m) :
    ((mark_failed s i msg0 m now).1 =
        some (if m ≤ r.retry_count + 1 then Status.failed
          else Status.pending)) ∧
    (getRow (mark_failed s i msg0 m now).2 i = some
        { r with
           status := if m ≤ r.retry_count + 1 then Status.failed
             else Status.pending,
           retry_count := r.retry_count + 1,
           error_message := some msg0,
           completed_at := if m ≤ r.retry_count + 1 then some now
             else none }) ∧
    (r.retry_count = 0 → ∀ k : Nat,
        getRow (failTimes s i msg m k) i = some
          (if k = 0 then r else
            { r with
               status := if m ≤ k then Status.failed else Status.pending,
               retry_count := k,
               error_message := some (msg (k - 1)),
               completed_at := if m ≤ k then some (k - 1) else none }) ∧
        (mark_failed (failTimes s i msg m k) i (msg k) m k).1 =
          some (if m ≤ k + 1 then Status.failed else Status.pending)) := by
  refine ⟨?_, mark_failed_getRow msg0 m now hr, ?_⟩
  · rw [mark_failed_found msg0 m now hr]
  · intro h0
    have key : ∀ k : Nat, getRow (failTimes s i msg m k) i = some
        (if k = 0 then r else
          { r with
             status := if m ≤ k then Status.failed else Status.pending,
             retry_count := k,
             error_message := some (msg (k - 1)),
             completed_at := if m ≤ k then some (k - 1) else none }) := by
      intro k
      induction k with
      | zero => simpa using hr
      | succ j ihj =>
        rw [failTimes]
        rw [mark_failed_getRow (msg j) m j ihj]
        cases j with
        | zero =>
          simp only [if_pos rfl, Nat.succ_ne_zero, if_neg, reduceIte]
          rw [h0]
        | succ j' =>
          simp only [Nat.succ_ne_zero, reduceIte]
          congr 1
    have hrc : ∀ k : Nat,
        (if k = 0 then r else
          { r with
             status := if m ≤ k then Status.failed else Status.pending,
             retry_count := k,
             error_message := some (msg (k - 1)),
             completed_at := if m ≤ k then some (k - 1) else none
           }).retry_count = k := by
      intro k
      cases k with
      | zero => simpa using h0
      | succ j => simp
    intro k
    refine ⟨key k, ?_⟩
    rw [mark_failed_found (msg k) m k (key k)]
    rw [hrc k]

theorem mark_failed_retry_spec_witness :
    getRow (failTimes [rowA] 1 (fun _ => ("e")) 3 3) 1 = some
      { rowA with status := Status.failed, retry_count := 3,
                  error_message := some ("e"), completed_at := some 2 } := by
  have h := (mark_failed_retry_spec [rowA] 1 rowA ("boom") (fun _ => ("e")) 3 7
    (by decide) (by decide)).2.2 rfl 3
  simpa using h.1

/-! ### Completion -/

theorem mark_completed_getRow {s : List Row} {i : Nat} {r : Row} (t : Nat)
    (hr : getRow s i = some r) :
    getRow (mark_completed s i t) i = some
      { r with status := Status.completed, completed_at := some t,
               error_message := none } := by
  rw [mark_completed, getRow_map_update s i (fun x =>
    { x with status := Status.completed, completed_at := some t,
             error_message := none }) (fun x => rfl), hr]
  rfl

/-- C3 counterexample: `mark_completed` writes
`completed_at = CURRENT_TIMESTAMP` unconditionally, so completing an
already-completed task at a later instant does change `completed_at` — here
from instant 1 to instant 2 — refuting "completed_at does not change after the
first call". -/
theorem mark_completed_changes_completed_at :
    (getRow (mark_completed [rowA] 1 1) 1).map Row.completed_at
        = some (some 1) ∧
    (getRow (mark_completed (mark_completed [rowA] 1 1) 1 2) 1).map
        Row.completed_at = some (some 2) := by decide

/-- C3 amended: a second `mark_completed` on an already-completed task still
leaves the status `completed` and `error_message` cleared (it is no error),
but it overwrites `completed_at` with the time of the second call rather than
preserving the first completion time. -/
theorem mark_completed_repeat_spec (s : List Row) (i : Nat) (r : Row)
    (t1 t2 : Nat) (hr : getRow s i = some r) :
    getRow (mark_completed s i t1) i = some
      { r with status := Status.completed, completed_at := some t1,
               error_message := none } ∧
    getRow (mark_completed (mark_completed s i t1) i t2) i = some
      { r with status := Status.completed, completed_at := some t2,
               error_message := none } := by
  have h1 := mark_completed_getRow t1 hr
  have h2 := mark_completed_getRow t2 h1
  exact ⟨h1, h2⟩

theorem mark_completed_repeat_spec_witness :
    getRow (mark_completed [rowA] 1 1) 1 = some
      { rowA with status := Status.completed, completed_at := some 1,
                  error_message := none } ∧
    getRow (mark_completed (mark_completed [rowA] 1 1) 1 2) 1 = some
      { rowA with status := Status.completed, completed_at := some 2,
                  error_message := none } :=
  mark_completed_repeat_spec [rowA] 1 rowA 1 2 (by decide)

/-! ### Stuck-task recovery -/

/-- C7: `reset_stuck_rows` returns the number of stuck rows (`in_progress`
with `started_at` older than the staleness threshold), transitions exactly
those rows back to `pending` tagging `error_message` with the recovery marker
(touching no other column), leaves every non-stuck row unchanged, and a reset
task whose `retry_count` is still below `maxRetries` is again eligible for
`claim_next_row`. -/
theorem reset_stuck_rows_spec (s : List Row) (timeout now m : Nat) :
    (reset_stuck_rows s timeout now).1 =
      (s.filter (isStuck timeout now)).length ∧
    (∀ r ∈ s, r.status = Status.in_progress → ∀ t, r.started_at = some t →
      t + timeout < now →
        { r with status := Status.pending,
                 error_message :=
                   some ("Reset from stuck in_progress state") }
          ∈ (reset_stuck_rows s timeout now).2) ∧
    (∀ r ∈ s, isStuck timeout now r = false →
      r ∈ (reset_stuck_rows s timeout now).2) ∧
    (∀ r ∈ s, r.status = Status.in_progress → ∀ t, r.started_at = some t →
      t + timeout < now → r.retry_count < m →
        eligible m
          { r with status := Status.pending,
                   error_message :=
                     some ("Reset from stuck in_progress state") } = true) := by
  refine ⟨rfl, ?_, ?_, ?_⟩
  · intro r hr hst t ht hlt
    have hstuck : isStuck timeout now r = true := by
      simp [isStuck, hst, ht, hlt]
    refine List.mem_map.mpr ⟨r, hr, ?_⟩
    rw [if_pos hstuck]
  · intro r hr hstuck
    refine List.mem_map.mpr ⟨r, hr, ?_⟩
    rw [hstuck]
    simp
  · intro r hr hst t ht hlt hretry
    simp [eligible, hretry]

def rowC : Row :=
  { rowA with
      id := 3, status := Status.in_progress, started_at := some 0,
      retry_count := 1 }

theorem reset_stuck_rows_spec_witness :
    { rowC with
        status := Status.pending,
        error_message := some ("Reset from stuck in_progress state") }
      ∈ (reset_stuck_rows [rowA, rowC] 30 100).2 ∧
    eligible 3 { rowC with
        status := Status.pending,
        error_message := some ("Reset from stuck in_progress state") }
      = true ∧
    rowA ∈ (reset_stuck_rows [rowA, rowC] 30 100).2 := by
  have h := reset_stuck_rows_spec [rowA, rowC] 30 100 3
  exact ⟨h.2.1 rowC (by decide) (by decide) 0 rfl (by decide),
         h.2.2.2 rowC (by decide) (by decide) 0 rfl (by decide) (by decide),
         h.2.2.1 rowA (by decide) (by decide)⟩

/-! ### The archive step of the worker (download_greeks.py lines 145-167)

The pipeline writes the CSV payload (line 146, creating the uncompressed
file), opens the `.zst` output for writing (line 158, creating the compressed
file on disk), streams the compressed bytes (line 159), and only then deletes
the uncompressed original (line 166).  We track which of the two files exist
and run the step sequence up to an optional failure point: `failAt = some k`
models an exception raised by step `k` after steps `0..k-1` completed (the
failing step itself has no effect on file existence — in particular a failure
while streaming, step 2, happens after the open of step 1 already created the
output file). -/

structure FS where
  csvExists : Bool
  zstExists : Bool
deriving DecidableEq

inductive ArchStep where
  | writeCsv
  | openCompressed
  | streamCompress
  | removeOriginal
deriving DecidableEq

def applyArchStep (fs : FS) : ArchStep → FS
  | ArchStep.writeCsv => { fs with csvExists := true }
  | ArchStep.openCompressed => { fs with zstExists := true }
  | ArchStep.streamCompress => fs
  | ArchStep.removeOriginal => { fs with csvExists := false }

def archSteps : List ArchStep :=
  [ArchStep.writeCsv, ArchStep.openCompressed, ArchStep.streamCompress,
   ArchStep.removeOriginal]

def runArchive (failAt : Option Nat) : FS :=
  match failAt with
  | none =>
    archSteps.foldl applyArchStep { csvExists := false, zstExists := false }
  | some k =>
    (archSteps.take k).foldl applyArchStep
      { csvExists := false, zstExists := false }

/-- C4 counterexample: a failure during compression streaming (step 2, after
the CSV was written and the `.zst` output was opened) leaves the uncompressed
file in place but ALSO leaves a partially-written compressed file on disk —
the code never removes `compressed_path` on failure — refuting "the compressed
file does not exist" for this failure point. -/
theorem compression_failure_leaves_zst :
    (runArchive (some 2)).csvExists = true ∧
      (runArchive (some 2)).zstExists = true := by decide

/-- C4 amended: for every failure point after the CSV was written, the
uncompressed file still exists (so it is never deleted unless the compressed
file exists — the deletion step runs only after compression succeeded); on
full success only the compressed file remains; and if the open of the
compressed output itself fails, no compressed file exists.  However a failure
during streaming (after the open) leaves a partial compressed file alongside
the uncompressed one. -/
theorem archive_atomicity_amended :
    (∀ k, 1 ≤ k → (runArchive (some k)).csvExists = true ∨
      (runArchive (some k)).zstExists = true) ∧
    runArchive none = { csvExists := false, zstExists := true } ∧
    (∀ k, 1 ≤ k → k ≤ 3 → (runArchive (some k)).csvExists = true) ∧
    (runArchive (some 1)).zstExists = false := by
  refine ⟨?_, by decide, ?_, by decide⟩
  · intro k hk
    match k, hk with
    | 1, _ => left; decide
    | 2, _ => left; decide
    | 3, _ => left; decide
    | (n + 4), _ =>
      right
      have ht : archSteps.take (n + 4) = archSteps :=
        List.take_of_length_le (by simp [archSteps])
      show ((archSteps.take (n + 4)).foldl applyArchStep
        { csvExists := false, zstExists := false }).zstExists = true
      rw [ht]
      decide
  · intro k hk1 hk3
    match k, hk1, hk3 with
    | 1, _, _ => decide
    | 2, _, _ => decide
    | 3, _, _ => decide
    | (n + 4), _, h => exact absurd h (by omega)

theorem archive_atomicity_amended_witness :
    (runArchive (some 3)).csvExists = true ∨
      (runArchive (some 3)).zstExists = true :=
  archive_atomicity_amended.1 3 (by decide)

/-! ### Reachable store states -/

/-- Membership in an UPDATE-with-condition: every row of the result is either
the updated image of a row satisfying the condition or an untouched row. -/
theorem mem_map_cond {s : List Row} {p : Row → Bool} {f : Row → Row}
    {r' : Row} (h : r' ∈ s.map fun x => if p x then f x else x) :
    ∃ x ∈ s, (p x = true ∧ r' = f x) ∨ (p x = false ∧ r' = x) := by
  obtain ⟨x, hx, hfx⟩ := List.mem_map.mp h
  refine ⟨x, hx, ?_⟩
  cases hp : p x with
  | true => left; exact ⟨rfl, by rw [← hfx, if_pos hp]⟩
  | false =>
    right
    refine ⟨rfl, ?_⟩
    rw [← hfx, if_neg ?_]
    rw [hp]
    exact Bool.false_ne_true

/-- Store states reachable from task creation through the store operations as
the worker pipeline drives them.  Tasks are created `pending` with no artifact
(the enumeration phase INSERTs only key columns); the worker invokes
`mark_completed` (download_greeks.py line 173) only immediately after
`update_compressed_file_path` (line 170) recorded the artifact for that id,
which the `complete` step carries as its guard. -/
inductive Reach : List Row → Prop where
  | init (s : List Row)
      (h : ∀ r ∈ s,
        r.status = Status.pending ∧ r.compressed_file_path = none) :
      Reach s
  | claim (s : List Row) (m now : Nat) (h : Reach s) :
      Reach (claim_next_row s m now).2
  | setArtifact (s : List Row) (i : Nat) (fp : String) (h : Reach s) :
      Reach (update_compressed_file_path s i fp)
  | complete (s : List Row) (i now : Nat) (h : Reach s)
      (hguard : ∀ r ∈ s, r.id = i → r.compressed_file_path ≠ none) :
      Reach (mark_completed s i now)
  | fail (s : List Row) (i : Nat) (msg : String) (m now : Nat) (h : Reach s) :
      Reach (mark_failed s i msg m now).2
  | recover (s : List Row) (timeout now : Nat) (h : Reach s) :
      Reach (reset_stuck_rows s timeout now).2

/-- C5 counterexample: after the worker claims a task and records its artifact
path (line 170) but before `mark_completed` (line 173), the store is a
reachable state holding a row with non-null `compressed_file_path` and status
`in_progress` — refuting "artifact_path is non-null iff status = completed". -/
theorem artifact_without_completed_reachable :
    Reach (update_compressed_file_path (claim_next_row [rowA] 3 0).2 1 ("p"))
    ∧ ∃ r ∈ update_compressed_file_path (claim_next_row [rowA] 3 0).2 1 ("p"),
        r.compressed_file_path ≠ none ∧ r.status ≠ Status.completed := by
  constructor
  · exact Reach.setArtifact _ 1 ("p")
      (Reach.claim [rowA] 3 0 (Reach.init [rowA] (by decide)))
  · decide

/-- C5 amended: in every reachable state, a `completed` task has a non-null
`compressed_file_path`; the converse direction of the claimed iff fails (see
the counterexample): the artifact is recorded one store operation before the
completion, so a task can hold an artifact while still `in_progress` (or again
`pending` if it is subsequently recovered). -/
theorem completed_implies_artifact (s : List Row) (h : Reach s) :
    ∀ r ∈ s, r.status = Status.completed → r.compressed_file_path ≠ none := by
  induction h with
  | init s h =>
    intro r hr hc
    rw [(h r hr).1] at hc
    exact absurd hc (by decide)
  | claim s m now h ih =>
    intro r' hr' hc
    cases hsel : selectNext s m with
    | none =>
      have he : (claim_next_row s m now).2 = s := by
        rw [claim_next_row, hsel]
      rw [he] at hr'
      exact ih r' hr' hc
    | some q =>
      have he : (claim_next_row s m now).2 = s.map fun x =>
          if x.id == q.id then
            { x with status := Status.in_progress, started_at := some now }
          else x := by
        rw [claim_next_row, hsel]
      rw [he] at hr'
      obtain ⟨x, hx, hcase⟩ := mem_map_cond hr'
      rcases hcase with ⟨_, rfl⟩ | ⟨_, rfl⟩
      · simp at hc
      · exact ih _ hx hc
  | setArtifact s i fp h ih =>
    intro r' hr' hc
    rw [update_compressed_file_path] at hr'
    obtain ⟨x, hx, hcase⟩ := mem_map_cond hr'
    rcases hcase with ⟨_, rfl⟩ | ⟨_, rfl⟩
    · simp
    · exact ih _ hx hc
  | complete s i now h hguard ih =>
    intro r' hr' hc
    rw [mark_completed] at hr'
    obtain ⟨x, hx, hcase⟩ := mem_map_cond hr'
    rcases hcase with ⟨hid, rfl⟩ | ⟨_, rfl⟩
    · exact hguard x hx (beq_iff_eq.mp hid)
    · exact ih _ hx hc
  | fail s i msg m now h ih =>
    intro r' hr' hc
    cases hfind : s.find? (fun x => x.id == i) with
    | none =>
      have he : (mark_failed s i msg m now).2 = s := by
        rw [mark_failed, hfind]
      rw [he] at hr'
      exact ih r' hr' hc
    | some q =>
      have he : (mark_failed s i msg m now).2 = s.map fun x =>
          if x.id == i then
            { x with
               status := if m ≤ q.retry_count + 1 then Status.failed
                 else Status.pending,
               retry_count := q.retry_count + 1,
               error_message := some msg,
               completed_at :=
                 if m ≤ q.retry_count + 1 then some now else none }
          else x := by
        rw [mark_failed, hfind]
        by_cases hcond : m ≤ q.retry_count + 1 <;> simp [hcond]
      rw [he] at hr'
      obtain ⟨x, hx, hcase⟩ := mem_map_cond hr'
      rcases hcase with ⟨_, rfl⟩ | ⟨_, rfl⟩
      · by_cases hcond : m ≤ q.retry_count + 1 <;> simp [hcond] at hc
      · exact ih _ hx hc
  | recover s timeout now h ih =>
    intro r' hr' hc
    have he : (reset_stuck_rows s timeout now).2 = s.map fun x =>
        if isStuck timeout now x then
          { x with status := Status.pending,
                   error_message :=
                     some ("Reset from stuck in_progress state") }
        else x := rfl
    rw [he] at hr'
    obtain ⟨x, hx, hcase⟩ := mem_map_cond hr'
    rcases hcase with ⟨_, rfl⟩ | ⟨_, rfl⟩
    · simp at hc
    · exact ih _ hx hc

/-- The store after one full successful worker pass over `rowA`: claim at
instant 0, record artifact, complete at instant 9. -/
def sDone : List Row :=
  mark_completed
    (update_compressed_file_path (claim_next_row [rowA] 3 0).2 1 ("p")) 1 9

def rowDone : Row :=
  { rowA with
      status := Status.completed, started_at := some 0,
      completed_at := some 9, compressed_file_path := some ("p") }

theorem completed_implies_artifact_witness :
    rowDone.compressed_file_path ≠ none :=
  completed_implies_artifact sDone
    (Reach.complete _ 1 9
      (Reach.setArtifact _ 1 ("p")
        (Reach.claim [rowA] 3 0 (Reach.init [rowA] (by decide))))
      (by decide))
    rowDone (by decide) (by decide)

/-! ### The worker loop (download_greeks.py lines 119-188) -/

/-- Abstract environment of one worker run: whether iteration `n`'s
fetch-and-archive succeeds, whether the interrupt signal arrives at some point
during iteration `n`, and the artifact path / error text produced by
iteration `n`. -/
structure WorkerEnv where
  fetchOk : Nat → Bool
  sigDuring : Nat → Bool
  artifact : Nat → String
  errText : Nat → String

/-- One iteration's finalization (download_greeks.py lines 138-188): on
success the worker records the artifact path (line 170) and marks the row
completed (line 173); on any exception it calls `mark_failed` (line 182). -/
def finalizeTask (s : List Row) (i : Nat) (ok : Bool) (fp msg : String)
    (m t : Nat) : List Row :=
  if ok then mark_completed (update_compressed_file_path s i fp) i t
  else (mark_failed s i msg m t).2

/-- The worker loop: the interrupt flag is consulted only at the
`while not self.interrupted` head (line 124); the signal handler (lines 81-85)
only sets the flag, so a claimed row is always finalized by `mark_completed`
or `mark_failed` within the same iteration.  `fuel` bounds the number of
iterations so the function is total; iteration `k` uses instant `k` for every
timestamp. -/
def workerLoop (env : WorkerEnv) (m : Nat) :
    Nat → Bool → Nat → List Row → List Row
  | 0, _, _, s => s
  | fuel + 1, interrupted, iter, s =>
    if interrupted then s
    else
      match (claim_next_row s m iter).1 with
      | none => (claim_next_row s m iter).2
      | some res =>
        workerLoop env m fuel (env.sigDuring iter) (iter + 1)
          (finalizeTask (claim_next_row s m iter).2 res.1 (env.fetchOk iter)
            (env.artifact iter) (env.errText iter) m iter)

theorem claim_fst_none {s : List Row} {m now : Nat}
    (h : (claim_next_row s m now).1 = none) :
    (claim_next_row s m now).2 = s := by
  cases hsel : selectNext s m with
  | none => rw [claim_next_row, hsel]
  | some q =>
    rw [claim_next_row, hsel] at h
    exact absurd h (by simp)

/-- After a successful claim, every `in_progress` row of the new store either
is the freshly claimed row or was already `in_progress` before. -/
theorem claim_snd_in_progress {s : List Row} {m now : Nat}
    {res : Nat × String × String × String}
    (h : (claim_next_row s m now).1 = some res) :
    ∀ p ∈ (claim_next_row s m now).2, p.status = Status.in_progress →
      p.id = res.1 ∨ ∃ r ∈ s, r.id = p.id ∧ r.status = Status.in_progress := by
  cases hsel : selectNext s m with
  | none =>
    rw [claim_next_row, hsel] at h
    exact absurd h (by simp)
  | some q =>
    rw [claim_next_row, hsel] at h ⊢
    have hres : res.1 = q.id := by
      have := congrArg Prod.fst (Option.some.injEq .. ▸ h : _)
      simp only [Option.some.injEq] at h
      rw [← h]
    intro p hp hst
    obtain ⟨x, hx, hcase⟩ := mem_map_cond hp
    rcases hcase with ⟨hid, rfl⟩ | ⟨_, rfl⟩
    · left
      show x.id = res.1
      rw [hres]
      exact beq_iff_eq.mp hid
    · right
      exact ⟨_, hx, rfl, hst⟩

/-- The finalization step never leaves the finalized id `in_progress`. -/
theorem finalizeTask_id_not_in_progress {s : List Row} {i : Nat} (ok : Bool)
    (fp msg : String) (m t : Nat) :
    ∀ r' ∈ finalizeTask s i ok fp msg m t, r'.id = i →
      r'.status ≠ Status.in_progress := by
  intro r' hr' hid
  cases ok with
  | true =>
    rw [finalizeTask, if_pos rfl] at hr'
    rw [mark_completed] at hr'
    obtain ⟨x, hx, hcase⟩ := mem_map_cond hr'
    rcases hcase with ⟨_, rfl⟩ | ⟨hneq, rfl⟩
    · intro hst
      simp at hst
    · exact absurd (beq_iff_eq.mpr hid)
        (by rw [hneq]; exact Bool.false_ne_true)
  | false =>
    rw [finalizeTask] at hr'
    rw [if_neg (by exact Bool.false_ne_true)] at hr'
    cases hfind : s.find? (fun x => x.id == i) with
    | none =>
      have he : (mark_failed s i msg m t).2 = s := by rw [mark_failed, hfind]
      rw [he] at hr'
      have := List.find?_eq_none.mp hfind r' hr'
      exact absurd (beq_iff_eq.mpr hid) this
    | some q =>
      have he : (mark_failed s i msg m t).2 = s.map fun x =>
          if x.id == i then
            { x with
               status := if m ≤ q.retry_count + 1 then Status.failed
                 else Status.pending,
               retry_count := q.retry_count + 1,
               error_message := some msg,
               completed_at :=
                 if m ≤ q.retry_count + 1 then some t else none }
          else x := by
        rw [mark_failed, hfind]
        by_cases hcond : m ≤ q.retry_count + 1 <;> simp [hcond]
      rw [he] at hr'
      obtain ⟨x, hx, hcase⟩ := mem_map_cond hr'
      rcases hcase with ⟨_, rfl⟩ | ⟨hneq, rfl⟩
      · intro hst
        by_cases hcond : m ≤ q.retry_count + 1 <;> simp [hcond] at hst
      · exact absurd (beq_iff_eq.mpr hid)
          (by rw [hneq]; exact Bool.false_ne_true)

/-- The finalization step creates no new `in_progress` row. -/
theorem finalizeTask_no_new_in_progress {s : List Row} {i : Nat} (ok : Bool)
    (fp msg : String) (m t : Nat) :
    ∀ r' ∈ finalizeTask s i ok fp msg m t,
      r'.status = Status.in_progress →
        ∃ p ∈ s, p.id = r'.id ∧ p.status = Status.in_progress := by
  intro r' hr' hst
  cases ok with
  | true =>
    rw [finalizeTask, if_pos rfl, mark_completed] at hr'
    obtain ⟨x, hx, hcase⟩ := mem_map_cond hr'
    rcases hcase with ⟨_, rfl⟩ | ⟨_, rfl⟩
    · simp at hst
    · rw [update_compressed_file_path] at hx
      obtain ⟨y, hy, hcase2⟩ := mem_map_cond hx
      rcases hcase2 with ⟨_, rfl⟩ | ⟨_, rfl⟩
      · exact ⟨y, hy, rfl, hst⟩
      · exact ⟨_, hy, rfl, hst⟩
  | false =>
    rw [finalizeTask, if_neg (by exact Bool.false_ne_true)] at hr'
    cases hfind : s.find? (fun x => x.id == i) with
    | none =>
      have he : (mark_failed s i msg m t).2 = s := by rw [mark_failed, hfind]
      rw [he] at hr'
      exact ⟨r', hr', rfl, hst⟩
    | some q =>
      have he : (mark_failed s i msg m t).2 = s.map fun x =>
          if x.id == i then
            { x with
               status := if m ≤ q.retry_count + 1 then Status.failed
                 else Status.pending,
               retry_count := q.retry_count + 1,
               error_message := some msg,
               completed_at :=
                 if m ≤ q.retry_count + 1 then some t else none }
          else x := by
        rw [mark_failed, hfind]
        by_cases hcond : m ≤ q.retry_count + 1 <;> simp [hcond]
      rw [he] at hr'
      obtain ⟨x, hx, hcase⟩ := mem_map_cond hr'
      rcases hcase with ⟨_, rfl⟩ | ⟨_, rfl⟩
      · by_cases hcond : m ≤ q.retry_count + 1 <;> simp [hcond] at hst
      · exact ⟨_, hx, rfl, hst⟩

/-- C8: Cancellation is honored only at iteration boundaries: whatever the
instants at which the signal arrives (`env.sigDuring`), every task the loop
claims is finalized (completed or failed) within its iteration, so any row
that is `in_progress` when the loop exits was already `in_progress` in the
initial store — graceful shutdown leaves no task `in_progress` because of the
cancellation. -/
theorem worker_loop_no_abandoned_task (env : WorkerEnv) (m fuel iter : Nat)
    (b : Bool) (s : List Row) :
    ∀ r' ∈ workerLoop env m fuel b iter s,
      r'.status = Status.in_progress →
        ∃ r ∈ s, r.id = r'.id ∧ r.status = Status.in_progress := by
  induction fuel generalizing b iter s with
  | zero =>
    intro r' hr' hst
    exact ⟨r', hr', rfl, hst⟩
  | succ fuel ih =>
    intro r' hr' hst
    cases b with
    | true =>
      rw [workerLoop, if_pos rfl] at hr'
      exact ⟨r', hr', rfl, hst⟩
    | false =>
      rw [workerLoop, if_neg (by exact Bool.false_ne_true)] at hr'
      cases hc : (claim_next_row s m iter).1 with
      | none =>
        rw [hc] at hr'
        rw [claim_fst_none hc] at hr'
        exact ⟨r', hr', rfl, hst⟩
      | some res =>
        rw [hc] at hr'
        obtain ⟨q, hq_mem, hq_id, hq_st⟩ := ih _ _ _ r' hr' hst
        have hne : ¬ q.id = res.1 := fun he =>
          finalizeTask_id_not_in_progress _ _ _ _ _ q hq_mem he hq_st
        obtain ⟨p, hp_mem, hp_id, hp_st⟩ :=
          finalizeTask_no_new_in_progress _ _ _ _ _ q hq_mem hq_st
        rcases claim_snd_in_progress hc p hp_mem hp_st with hpi | ⟨r, hr, hrid, hrst⟩
        · exact absurd (hp_id ▸ hpi) hne
        · exact ⟨r, hr, by rw [hrid, hp_id, hq_id], hrst⟩

def envW : WorkerEnv :=
  { fetchOk := fun _ => true, sigDuring := fun _ => false,
    artifact := fun _ => ("p"), errText := fun _ => ("e") }

theorem worker_loop_no_abandoned_task_witness :
    ∃ r ∈ [rowC], r.id = rowC.id ∧ r.status = Status.in_progress :=
  worker_loop_no_abandoned_task envW 3 1 0 false [rowC] rowC (by decide)
    (by decide)

/-! ### The artifact path (download_greeks.py lines 26-57 and 152-153) -/

/-- Python `os.path.join a b` (posixpath, two arguments): an absolute second
component discards everything before it; otherwise insert a slash unless `a`
is empty or already ends in one. -/
def pathJoin (a b : List Char) : List Char :=
  if b.head? = some '/' then b
  else if a = [] then b
  else if a.getLast? = some '/' then a ++ b
  else a ++ '/' :: b

/-- Python `s.replace("-", "")`: drop every dash. -/
def stripDashes (s : List Char) : List Char := s.filter fun c => !(c == '-')

/-- `get_file_path` (download_greeks.py lines 26-57) over the characters of
its string arguments: `year = trade_date[:4]`, `month = trade_date[5:7]`,
filename `{symbol}_{expYYYYMMDD}_{tradeYYYYMMDD}_{interval}.csv`, joined as
`base_dir/symbol/year/month/filename`.  (The `os.makedirs` side effect does
not affect the returned path.) -/
def get_file_path
    (symbol expiration trade_date base_dir interval : List Char) :
    List Char :=
  let year := trade_date.take 4
  let month := (trade_date.drop 5).take 2
  let exp_formatted := stripDashes expiration
  let date_formatted := stripDashes trade_date
  let symbol_dir := pathJoin base_dir symbol
  let year_dir := pathJoin symbol_dir year
  let month_dir := pathJoin year_dir month
  let filename := symbol ++ '_' :: exp_formatted ++ '_' :: date_formatted
    ++ '_' :: interval ++ ('.' :: 'c' :: 's' :: 'v' :: [])
  pathJoin month_dir filename

theorem stripDashes_eq_self {l : List Char} (h : ∀ c ∈ l, c ≠ '-') :
    stripDashes l = l :=
  List.filter_eq_self.mpr (fun c hc => by simp [h c hc])

theorem stripDashes_append (a b : List Char) :
    stripDashes (a ++ b) = stripDashes a ++ stripDashes b :=
  List.filter_append a b

theorem stripDashes_cons_dash (l : List Char) :
    stripDashes ('-' :: l) = stripDashes l := by
  simp [stripDashes]

theorem stripDashes_nodash (u v w : List Char) (hu : ∀ c ∈ u, c ≠ '-')
    (hv : ∀ c ∈ v, c ≠ '-') (hw : ∀ c ∈ w, c ≠ '-') :
    stripDashes (u ++ '-' :: v ++ '-' :: w) = u ++ v ++ w := by
  simp [stripDashes_append, stripDashes_cons_dash, stripDashes_eq_self hu,
    stripDashes_eq_self hv, stripDashes_eq_self hw]

theorem pathJoin_eq {a : List Char} (b : List Char)
    (hb : b.head? ≠ some '/') (ha : a ≠ [])
    (ha2 : a.getLast? ≠ some '/') : pathJoin a b = a ++ '/' :: b := by
  rw [pathJoin, if_neg hb, if_neg ha, if_neg ha2]

theorem getLast?_append_cons (a : List Char) (c : Char) {b : List Char}
    (hb : b ≠ []) : (a ++ c :: b).getLast? = b.getLast? := by
  rw [List.append_cons]
  exact List.getLast?_append_of_ne_nil _ hb

theorem head?_append_left {a : List Char} (b : List Char) (ha : a ≠ []) :
    (a ++ b).head? = a.head? := by
  cases a with
  | nil => exact absurd rfl ha
  | cons x xs => rfl

/-- C9 counterexample: `os.path.join` discards everything before an absolute
component, so for a symbol beginning with the separator — allowed by the
claim's universal quantification over symbols — the program returns only the
(now absolute) filename instead of the claimed
`{baseDir}/{symbol}/{YYYY}/{MM}/...` layout. -/
theorem get_file_path_absolute_symbol :
    get_file_path (("/S").data)
        ((("2024").data) ++ '-' :: (("01").data) ++ '-' :: (("19").data))
        ((("2024").data) ++ '-' :: (("01").data) ++ '-' :: (("15").data))
        (("/Volumes/X9/data").data) (("5s").data)
      = (("/S_20240119_20240115_5s.csv").data) ∧
    get_file_path (("/S").data)
        ((("2024").data) ++ '-' :: (("01").data) ++ '-' :: (("19").data))
        ((("2024").data) ++ '-' :: (("01").data) ++ '-' :: (("15").data))
        (("/Volumes/X9/data").data) (("5s").data)
      ++ ('.' :: 'z' :: 's' :: 't' :: []) ≠
    (("/Volumes/X9/data").data) ++ '/' :: (("/S").data) ++ '/'
      :: (("2024").data) ++ '/' :: (("01").data) ++ '/' :: (("/S").data)
      ++ '_' :: ((("2024").data) ++ (("01").data) ++ (("19").data))
      ++ '_' :: ((("2024").data) ++ (("01").data) ++ (("15").data))
      ++ '_' :: (("5s").data)
      ++ ('.' :: 'c' :: 's' :: 'v' :: '.' :: 'z' :: 's' :: 't' :: []) := by
  decide

/-- C9 amended: For YYYY-MM-DD expiration and trade dates (dash-free 4/2/2
digit components not beginning or ending in the path separator), a non-empty
base directory, and a symbol that neither begins nor ends with the path
separator — the begins-with proviso is what the counterexample forces, since
`os.path.join` discards every preceding component before an absolute one —
the compressed artifact path (`get_file_path` plus the `".zst"` suffix
appended at download_greeks.py line 153) is exactly
`{baseDir}/{symbol}/{YYYY}/{MM}/{symbol}_{expYYYYMMDD}_{tradeYYYYMMDD}_{interval}.csv.zst`
with `YYYY`/`MM` the year and month of the trade date; being a pure function
of its arguments it is deterministic. -/
theorem get_file_path_spec
    (symbol base_dir interval ey em ed ty tm td : List Char)
    (hty : ty.length = 4) (htm : tm.length = 2)
    (hey : ∀ c ∈ ey, c ≠ '-') (hem : ∀ c ∈ em, c ≠ '-')
    (hed : ∀ c ∈ ed, c ≠ '-') (htyd : ∀ c ∈ ty, c ≠ '-')
    (htmd : ∀ c ∈ tm, c ≠ '-') (htdd : ∀ c ∈ td, c ≠ '-')
    (hbase : base_dir ≠ []) (hbase2 : base_dir.getLast? ≠ some '/')
    (hsym : symbol ≠ []) (hsym2 : symbol.getLast? ≠ some '/')
    (hsymh : symbol.head? ≠ some '/')
    (htyl : ty.getLast? ≠ some '/') (html : tm.getLast? ≠ some '/')
    (htyh : ty.head? ≠ some '/') (htmh : tm.head? ≠ some '/') :
    get_file_path symbol (ey ++ '-' :: em ++ '-' :: ed)
        (ty ++ '-' :: tm ++ '-' :: td) base_dir interval
      ++ ('.' :: 'z' :: 's' :: 't' :: []) =
    base_dir ++ '/' :: symbol ++ '/' :: ty ++ '/' :: tm ++ '/' :: symbol
      ++ '_' :: (ey ++ em ++ ed) ++ '_' :: (ty ++ tm ++ td)
      ++ '_' :: interval
      ++ ('.' :: 'c' :: 's' :: 'v' :: '.' :: 'z' :: 's' :: 't' :: []) := by
  have hty0 : ty ≠ [] := by
    intro h
    rw [h] at hty
    simp at hty
  have htm0 : tm ≠ [] := by
    intro h
    rw [h] at htm
    simp at htm
  have hyear : (ty ++ '-' :: tm ++ '-' :: td).take 4 = ty := by
    rw [List.append_assoc]
    have h := List.take_left ty ('-' :: tm ++ '-' :: td)
    rw [hty] at h
    exact h
  have hmonth : ((ty ++ '-' :: tm ++ '-' :: td).drop 5).take 2 = tm := by
    have hre : ty ++ '-' :: tm ++ '-' :: td
        = (ty ++ ['-']) ++ (tm ++ '-' :: td) := by
      simp
    rw [hre]
    have hlen : (ty ++ ['-']).length = 5 := by simp [hty]
    rw [← hlen, List.drop_left]
    have h := List.take_left tm ('-' :: td)
    rw [htm] at h
    exact h
  simp only [get_file_path]
  rw [hyear, hmonth, stripDashes_nodash ey em ed hey hem hed,
    stripDashes_nodash ty tm td htyd htmd htdd,
    pathJoin_eq symbol hsymh hbase hbase2]
  rw [pathJoin_eq ty ?hg0 ?hg1 ?hg2]
  case hg0 => exact htyh
  case hg1 => simp [hbase]
  case hg2 =>
    rw [getLast?_append_cons base_dir '/' hsym]
    exact hsym2
  rw [pathJoin_eq tm ?hg3a ?hg3 ?hg4]
  case hg3a => exact htmh
  case hg3 => simp [hbase]
  case hg4 =>
    rw [getLast?_append_cons _ '/' hty0]
    exact htyl
  rw [pathJoin_eq _ ?hg5a ?hg5 ?hg6]
  case hg5a =>
    rw [head?_append_left _ (by simp [hsym]), head?_append_left _ (by simp [hsym]),
      head?_append_left _ (by simp [hsym]), head?_append_left _ hsym]
    exact hsymh
  case hg5 => simp [hbase]
  case hg6 =>
    rw [getLast?_append_cons _ '/' htm0]
    exact html
  simp [List.append_assoc]

theorem get_file_path_spec_witness :
    get_file_path (("SPX").data)
        ((("2024").data) ++ '-' :: (("01").data) ++ '-' :: (("19").data))
        ((("2024").data) ++ '-' :: (("01").data) ++ '-' :: (("15").data))
        (("/Volumes/X9/data").data) (("5s").data)
      ++ ('.' :: 'z' :: 's' :: 't' :: []) =
    (("/Volumes/X9/data").data) ++ '/' :: (("SPX").data) ++ '/'
      :: (("2024").data) ++ '/' :: (("01").data) ++ '/' :: (("SPX").data)
      ++ '_' :: ((("2024").data) ++ (("01").data) ++ (("19").data))
      ++ '_' :: ((("2024").data) ++ (("01").data) ++ (("15").data))
      ++ '_' :: (("5s").data)
      ++ ('.' :: 'c' :: 's' :: 'v' :: '.' :: 'z' :: 's' :: 't' :: []) :=
  get_file_path_spec (("SPX").data) (("/Volumes/X9/data").data)
    (("5s").data) (("2024").data) (("01").data) (("19").data)
    (("2024").data) (("01").data) (("15").data)
    (by decide) (by decide) (by decide) (by decide) (by decide) (by decide)
    (by decide) (by decide) (by decide) (by decide) (by decide) (by decide)
    (by decide) (by decide) (by decide) (by decide) (by decide)

end Theta
